import Mathlib

/-!
Verification of the drift-remediation core of `scripts/fabric-pulse.py`
(with the shared inventory-walk of `scripts/inventory_check.py`).

Shallow embedding conventions:
* Text is `List Char` (one character per Python character); `'\n'` is the
  line terminator.  Python's `str.splitlines` also splits on rarer
  terminators (`\v`, `\f`, `\x1c`…); configuration text uses `'\n'` only,
  so the embedding splits on `'\n'`.
* Python's `str.strip`/`rstrip` whitespace set is modelled by `pyWs`
  (space, tab, newline, carriage return, vertical tab, form feed).
* External collaborators (the eAPI session, the filesystem, the inventory
  JSON) are modelled as explicit inputs: fallible calls are `Except`/
  `Option` values supplied by an environment record.
-/

namespace FabricPulse

/-- Text as a list of characters. -/
abbrev Str := List Char

/-- Python `str.strip()` whitespace characters (ASCII subset). -/
def pyWs (c : Char) : Bool :=
  c == ' ' || c == '\t' || c == '\n' || c == '\r' || c == '\x0b' || c == '\x0c'

/-- Python `str.lstrip()`: drop leading whitespace. -/
def lstrip (s : Str) : Str := s.dropWhile pyWs

/-- Python `str.rstrip()`: drop trailing whitespace. -/
def rstrip (s : Str) : Str := s.rdropWhile pyWs

/-- Python `str.strip()`: drop whitespace at both ends. -/
def strip (s : Str) : Str := lstrip (rstrip s)

/-- Split at every `'\n'`; always returns at least one piece
(`splitNl "a\nb"` is `["a","b"]`, `splitNl ""` is `[""]`). -/
def splitNl : Str → List Str
  | [] => [[]]
  | c :: cs =>
    if c = '\n' then [] :: splitNl cs
    else
      match splitNl cs with
      | [] => [[c]]
      | p :: ps => (c :: p) :: ps

/-- Join pieces with a single `'\n'` between consecutive pieces
(Python `"\n".join`). -/
def joinNl : List Str → Str
  | [] => []
  | [x] => x
  | x :: y :: ys => x ++ '\n' :: joinNl (y :: ys)

/-- Remove one trailing `'\n'` if present (the final line terminator that
Python `str.splitlines` does not turn into an extra empty line). -/
def dropTrailNl (s : Str) : Str :=
  if s.getLast? = some '\n' then s.dropLast else s

/-- Python `str.splitlines()` restricted to `'\n'` terminators:
`"".splitlines() = []`, a single trailing terminator produces no extra
empty line, every interior terminator splits. -/
def splitlines (s : Str) : List Str :=
  if s = [] then [] else splitNl (dropTrailNl s)

/-- Model of `running_config` (fabric-pulse.py line 319-321) applied to the raw
text returned by the device: per-line `rstrip`, join with `'\n'`,
whole-text `strip`, then one trailing newline
(`"\n".join(line.rstrip() for line in text.splitlines()).strip() + "\n"`). -/
def running_config (text : Str) : Str :=
  strip (joinNl ((splitlines text).map rstrip)) ++ ['\n']

/-- Model of `load_golden_config` (fabric-pulse.py line 324-325) applied to the
baseline file's text: join the split lines with `'\n'`, whole-text
`strip`, then one trailing newline
(`"\n".join(path.read_text().splitlines()).strip() + "\n"`).
Note: unlike `running_config`, no per-line `rstrip` is applied. -/
def load_golden_config (text : Str) : Str :=
  strip (joinNl (splitlines text)) ++ ['\n']

/-! ## Line diff

`config_diff` (fabric-pulse.py line 328-338) calls
`difflib.unified_diff(golden.splitlines(), running.splitlines(), ...)`,
an external standard-library routine.  It is modelled by an executable
LCS-based line diff that agrees with `difflib.unified_diff` on the one
observable the program uses (`drift = len(diff) > 0`): the output is
empty exactly when the two line sequences are equal, and otherwise is the
two `---`/`+++` file headers followed by marker lines (`-` deleted,
`+` inserted, `' '` kept).  Hunk grouping/elision of the real
`unified_diff` is not modelled; it never changes emptiness. -/

/-- Length of a longest common subsequence of two line lists.  Structural
recursion on a fuel argument so that the kernel can evaluate it; every
recursive step removes at least one element from the two lists together,
so `a.length + b.length` fuel (as supplied by `lcsLen`) never runs out. -/
def lcsLenF : Nat → List Str → List Str → Nat
  | 0, _, _ => 0
  | _ + 1, [], _ => 0
  | _ + 1, _ :: _, [] => 0
  | f + 1, x :: xs, y :: ys =>
    if x = y then lcsLenF f xs ys + 1
    else max (lcsLenF f xs (y :: ys)) (lcsLenF f (x :: xs) ys)

/-- Length of a longest common subsequence of two line lists. -/
def lcsLen (a b : List Str) : Nat := lcsLenF (a.length + b.length) a b

/-- One element of a line-level diff. -/
inductive DiffOp where
  | keep (l : Str)
  | del (l : Str)
  | ins (l : Str)
deriving DecidableEq

/-- LCS-based diff script between two line lists (fuel as in `lcsLenF`). -/
def diffOpsF : Nat → List Str → List Str → List DiffOp
  | 0, _, _ => []
  | _ + 1, [], [] => []
  | f + 1, [], y :: ys => .ins y :: diffOpsF f [] ys
  | f + 1, x :: xs, [] => .del x :: diffOpsF f xs []
  | f + 1, x :: xs, y :: ys =>
    if x = y then .keep x :: diffOpsF f xs ys
    else if lcsLen (x :: xs) ys ≤ lcsLen xs (y :: ys) then .del x :: diffOpsF f xs (y :: ys)
    else .ins y :: diffOpsF f (x :: xs) ys

/-- LCS-based diff script between two line lists. -/
def diffOps (a b : List Str) : List DiffOp := diffOpsF (a.length + b.length) a b

/-- Whether a diff element keeps a line unchanged. -/
def DiffOp.isKeep : DiffOp → Bool
  | .keep _ => true
  | _ => false

/-- Unified-diff style rendering of one diff element. -/
def DiffOp.render : DiffOp → Str
  | .keep l => ' ' :: l
  | .del l => '-' :: l
  | .ins l => '+' :: l

/-- Model of `config_diff` (fabric-pulse.py line 328-338): line diff between the
normalized golden and running texts; empty when the line sequences are
equal, otherwise headers naming `golden/<hostname>.cfg` and
`running/<hostname>` followed by the diff body. -/
def config_diff (golden running hostname : Str) : List Str :=
  let ops := diffOps (splitlines golden) (splitlines running)
  if ops.all DiffOp.isKeep then []
  else ("--- golden/".data ++ hostname ++ ".cfg".data)
    :: ("+++ running/".data ++ hostname) :: ops.map DiffOp.render

/-! ## Drift detection -/

/-- Model of `Device` (fabric-pulse.py line 28-31). -/
structure Device where
  name : Str
  host : Str
deriving DecidableEq

/-- One entry of the per-device result dict built by `detect_drift`
(fabric-pulse.py line 345-350): keys `"drift"`, `"reason"`, `"diff"`,
`"golden_path"`. -/
structure DriftResult where
  drift : Bool
  reason : Str
  diff : List Str
  golden_path : Str
deriving DecidableEq, Inhabited

/-- External world seen by one detection pass: the golden-config
directory (`path.exists()` + `path.read_text()`, `none` when the file
does not exist) and the eAPI running-config fetch
(`node_for_device` + `command_text`, `.error msg` when any of it raises,
with `msg` the exception text). Both are keyed by device name: the
golden path is `<golden_dir>/<name>.cfg` and the session is opened from
the device's record. -/
structure Env where
  golden : Str → Option Str
  fetch : Str → Except Str Str

/-- Model of `golden_file_path` (fabric-pulse.py line 315-316):
`golden_dir / f"{hostname}.cfg"`. -/
def golden_file_path (golden_dir hostname : Str) : Str :=
  golden_dir ++ '/' :: hostname ++ ".cfg".data

/-- The body of `detect_drift`'s per-device loop
(fabric-pulse.py line 344-366): missing baseline short-circuits with
reason `"Golden config missing"` before any session is opened; a raising
fetch yields reason `"Error reading running-config: <exc>"`; otherwise
both texts are normalized, diffed, and `drift = len(diff) > 0`. -/
def detect_one (env : Env) (golden_dir : Str) (device : Device) : DriftResult :=
  let path := golden_file_path golden_dir device.name
  match env.golden device.name with
  | none =>
    { drift := false, reason := "Golden config missing".data, diff := [], golden_path := path }
  | some gtext =>
    match env.fetch device.name with
    | .error exc =>
      { drift := false, reason := "Error reading running-config: ".data ++ exc,
        diff := [], golden_path := path }
    | .ok rtext =>
      let running := running_config rtext
      let golden := load_golden_config gtext
      let diff := config_diff golden running device.name
      { drift := !diff.isEmpty, reason := [], diff := diff, golden_path := path }

/-- Insertion into a Python-dict model (`results[device.name] = result`):
replace in place when the key is present, append otherwise. -/
def dictInsert (m : List (Str × DriftResult)) (k : Str) (v : DriftResult) :
    List (Str × DriftResult) :=
  match m with
  | [] => [(k, v)]
  | (k', v') :: rest => if k' = k then (k', v) :: rest else (k', v') :: dictInsert rest k v

/-- Lookup in the Python-dict model (`drift_data[name]`). -/
def dictLookup (m : List (Str × DriftResult)) (k : Str) : Option DriftResult :=
  match m with
  | [] => none
  | (k', v) :: rest => if k' = k then some v else dictLookup rest k

/-- Model of `detect_drift` (fabric-pulse.py line 341-367): one `DriftResult` per
device, keyed by device name in a dict. -/
def detect_drift (env : Env) (golden_dir : Str) (devices : List Device) :
    List (Str × DriftResult) :=
  devices.foldl (fun acc d => dictInsert acc d.name (detect_one env golden_dir d)) []

/-! ## Snapshot collector and health evaluator -/

/-- Model of `Snapshot` (fabric-pulse.py line 34-45). -/
structure Snapshot where
  name : Str
  model : Str
  version : Str
  uptime : Str
  cpu : Str
  temperature : Str
  bgp : Str
  mlag : Str
  reachable : Bool
  error : Str := []
deriving DecidableEq

/-- Fields read from the `show version` response
(`version.get("modelName"/"version"/"uptime")`); `uptime` is `some`
only when the payload value is an integer (`isinstance(seconds, int)`). -/
structure VersionData where
  modelName : Option Str
  version : Option Str
  uptime : Option Int
deriving DecidableEq

/-- External world seen by `collect_snapshot` for one device.
`connectVersion` models `node_for_device` followed by
`command_json(node, "show version")` — the only statements of the `try`
block that can raise (`.error exc` carries `str(exc)`).  The four
`read_*` helpers catch every exception internally and return a string
(`"n/a"` on failure), so their results are modelled as plain strings. -/
structure SnapEnv where
  connectVersion : Except Str VersionData
  cpu : Str
  temp : Str
  bgp : Str
  mlag : Str

/-- Model of `format_uptime` (fabric-pulse.py line 139-145): non-integers render
as `"n/a"`, integers as `"{d}d {h}h {m}m"` via Python `divmod`
(floored division, modelled by `Int.ediv`/`Int.emod`, which agree with
Python for the positive divisors used here). -/
def format_uptime : Option Int → Str
  | none => "n/a".data
  | some seconds =>
    let days := seconds.ediv 86400
    let rem := seconds.emod 86400
    let hours := rem.ediv 3600
    let rem2 := rem.emod 3600
    let minutes := rem2.ediv 60
    (toString days).data ++ "d ".data ++ (toString hours).data ++ "h ".data
      ++ (toString minutes).data ++ "m".data

/-- Model of `collect_snapshot` (fabric-pulse.py line 238-269): on any raise from
connect/`show version` the device degrades to an unreachable sentinel
snapshot carrying the exception text; otherwise the fields are filled
from the version payload (absent keys default to `"n/a"`) and the
fault-isolated `read_*` results. -/
def collect_snapshot (env : SnapEnv) (device : Device) : Snapshot :=
  match env.connectVersion with
  | .error exc =>
    { name := device.name, model := "n/a".data, version := "n/a".data,
      uptime := "n/a".data, cpu := "n/a".data, temperature := "n/a".data,
      bgp := "n/a".data, mlag := "n/a".data, reachable := false, error := exc }
  | .ok v =>
    { name := device.name, model := v.modelName.getD "n/a".data,
      version := v.version.getD "n/a".data, uptime := format_uptime v.uptime,
      cpu := env.cpu, temperature := env.temp, bgp := env.bgp, mlag := env.mlag,
      reachable := true }

/-- Model of `health_color` (fabric-pulse.py line 208-226) on the parsed numeric
values: `cpu?` models `float(cpu_text.rstrip("%"))` (`none` when the
parse raises, e.g. on `"n/a"`), `temp?` likewise for
`float(temp_text.rstrip("C"))`.  `"red"`/`"yellow"`/`"green"` are the
spec's `critical`/`caution`/`nominal`. -/
def health_color (cpu? temp? : Option ℚ) : Str :=
  if (match cpu? with | some v => decide (80 ≤ v) | none => false) then "red".data
  else if (match temp? with | some v => decide (80 ≤ v) | none => false) then "red".data
  else if cpu?.isNone && temp?.isNone then "yellow".data
  else "green".data

/-! ## Remediation driver (tail of `main`) -/

/-- Observable outcome of the post-detection part of `main`:
the device names passed to `restore_golden` in order, the verification
pass's dict, and the process exit code. -/
structure RunOutcome where
  restores : List Str
  post : List (Str × DriftResult)
  exitCode : Nat
deriving DecidableEq

/-- Model of `drifted = [d for d in devices if drift_data[d.name]["drift"]]`
(fabric-pulse.py line 455).  Inside `main` the dict always has every
device's name (claim C10), so the `getD false` default is never taken
there. -/
def drifted_devices (drift_data : List (Str × DriftResult)) (devices : List Device) :
    List Device :=
  devices.filter fun d => ((dictLookup drift_data d.name).map DriftResult.drift).getD false

/-- Tail of `main` after the first detection pass
(fabric-pulse.py line 455-490): early exits for `--no-restore`/no
drift/declined prompt; otherwise every drifted device is restored once
(`restore_ok` models `restore_golden`'s success flag), the drifted
subset is re-detected against `envV` (the world at verification time),
and the exit code is 0 iff every restore succeeded and no re-detected
device has `drift` set. -/
def run_tail (envV : Env) (golden_dir : Str) (devices : List Device)
    (drift_data : List (Str × DriftResult)) (no_restore confirmed : Bool)
    (restore_ok : Str → Bool) : RunOutcome :=
  let drifted := drifted_devices drift_data devices
  if no_restore || drifted.isEmpty then
    { restores := [], post := [], exitCode := if drifted.isEmpty then 0 else 1 }
  else if !confirmed then
    { restores := [], post := [], exitCode := 1 }
  else
    let all_ok := drifted.all fun d => restore_ok d.name
    let post := detect_drift envV golden_dir drifted
    let remaining := (post.filter fun p => p.2.drift).map Prod.fst
    { restores := drifted.map Device.name, post := post,
      exitCode := if all_ok && remaining.isEmpty then 0 else 1 }

/-- Drift portion of `main` (fabric-pulse.py line 451-490): first
detection pass over all devices against `envD` (the world at detection
time), then `run_tail`.  The snapshot/dashboard phase has no effect on
drift state and is not modelled here. -/
def run_main (envD envV : Env) (golden_dir : Str) (devices : List Device)
    (no_restore confirmed : Bool) (restore_ok : Str → Bool) : RunOutcome :=
  run_tail envV golden_dir devices (detect_drift envD golden_dir devices)
    no_restore confirmed restore_ok

/-! ## Inventory group walk -/

/-- One group's entry in the `ansible-inventory --list` JSON:
`{"hosts": [...], "children": [...]}` (absent keys default to empty). -/
structure GroupData where
  hosts : List Str
  children : List Str
deriving DecidableEq, Inhabited

/-- The inventory JSON object: group name to group data. -/
abbrev Inventory := List (Str × GroupData)

/-- Model of `inv.get(group_name, {})` with the per-key `.get(..., [])` defaults. -/
def invGet (inv : Inventory) (g : Str) : GroupData :=
  match inv with
  | [] => ⟨[], []⟩
  | (k, v) :: rest => if k = g then v else invGet rest g

/-- Python set update: add the elements of `l₁` missing from `l₂`
(insertion preserving the no-duplicates invariant). -/
def setUnion (l₁ l₂ : List Str) : List Str :=
  l₁.foldr (fun a acc => if a ∈ acc then acc else a :: acc) l₂

/-- The `for child in group_data.get("children", [])` loop of
`collect_hosts` (fabric-pulse.py line 89-90): run `rec` on each child in
order, threading the `seen` set through (the Python code mutates one
shared `set`), and union the host sets. -/
def foldChildren (rec : Str → List Str → Option (List Str × List Str)) :
    List Str → List Str → Option (List Str × List Str)
  | [], seen => some ([], seen)
  | c :: cs, seen =>
    match rec c seen with
    | none => none
    | some (h₁, seen₁) =>
      match foldChildren rec cs seen₁ with
      | none => none
      | some (h₂, seen₂) => some (setUnion h₁ h₂, seen₂)

/-- Model of `collect_hosts` (fabric-pulse.py line 80-91; the identical `collect`
closure of inventory_check.py line 83-93): recursive host collection
with cycle protection through `seen`.  Python's `set` of hosts is a
deduplicated list here; Python recursion depth is a `fuel` argument
(`none` = fuel ran out), and the termination theorem below shows that
`|inventory| + 1` fuel always suffices — which is the model's rendering
of "the Python recursion terminates". -/
def collect_hosts (inv : Inventory) : Nat → Str → List Str → Option (List Str × List Str)
  | 0, _, _ => none
  | fuel + 1, g, seen =>
    if g ∈ seen then some ([], seen)
    else
      match foldChildren (collect_hosts inv fuel) (invGet inv g).children (g :: seen) with
      | none => none
      | some (hs, seen') => some (setUnion (invGet inv g).hosts.dedup hs, seen')

/-! ## Auxiliary definitions for the statements and proofs -/

/-- Modelled from the spec's words (claim C1 / §4.3 step 2): "strip
trailing whitespace per line, then strip leading/trailing blank lines,
then ensure exactly one trailing newline" — the single normalization the
spec asserts is applied to both sides.  Used only to compare against the
code's two normalizations. -/
def spec_normalize (text : Str) : Str :=
  let lines := (splitlines text).map rstrip
  joinNl ((lines.dropWhile (·.isEmpty)).rdropWhile (·.isEmpty)) ++ ['\n']

/-- Group names present in the inventory JSON object. -/
def invKeys (inv : Inventory) : List Str := inv.map Prod.fst

/-- Apply `lstrip` to the first piece of a piece list. -/
def lstripFirst : List Str → List Str
  | [] => []
  | h :: t => lstrip h :: t

/-- Pieces that contain no line terminator and carry no trailing
whitespace — the shape of the pieces of a per-line-rstripped text. -/
def NormPieces (ls : List Str) : Prop := ∀ l ∈ ls, '\n' ∉ l ∧ rstrip l = l

/-! ## Diff facts -/

/-- With enough fuel, diffing a line list against itself keeps every line. -/
theorem diffOpsF_self (xs : List Str) : ∀ f, xs.length + xs.length ≤ f →
    diffOpsF f xs xs = xs.map DiffOp.keep := by
  induction xs with
  | nil => intro f _; cases f <;> rfl
  | cons x xs ih =>
    intro f hf
    cases f with
    | zero => simp at hf
    | succ f =>
      have step : diffOpsF (f + 1) (x :: xs) (x :: xs) = DiffOp.keep x :: diffOpsF f xs xs := by
        simp [diffOpsF]
      rw [step, List.map_cons, ih f (by simp only [List.length_cons] at hf; omega)]

/-- Diffing a line list against itself keeps every line. -/
theorem diffOps_self (xs : List Str) : diffOps xs xs = xs.map DiffOp.keep :=
  diffOpsF_self xs (xs.length + xs.length) (Nat.le_refl _)

/-- Equal line sequences produce an empty `config_diff`. -/
theorem config_diff_eq_nil {g r : Str} (hname : Str) (h : splitlines g = splitlines r) :
    config_diff g r hname = [] := by
  unfold config_diff
  rw [h, diffOps_self]
  simp [DiffOp.isKeep, List.all_eq_true]

/-! ## Dict-model facts -/

/-- Inserting an absent key appends. -/
theorem dictInsert_of_not_mem {m : List (Str × DriftResult)} {k : Str} (v : DriftResult)
    (h : k ∉ m.map Prod.fst) : dictInsert m k v = m ++ [(k, v)] := by
  induction m with
  | nil => rfl
  | cons p rest ih =>
    obtain ⟨k', v'⟩ := p
    simp only [List.map_cons, List.mem_cons, not_or] at h
    obtain ⟨h1, h2⟩ := h
    have hne : ¬(k' = k) := fun hk => h1 hk.symm
    simp only [dictInsert, if_neg hne, List.cons_append, List.cons.injEq, true_and]
    exact ih h2

/-- A pair of an insertion result is an old pair or carries the new value. -/
theorem mem_dictInsert {m : List (Str × DriftResult)} {k : Str} {v : DriftResult}
    {p : Str × DriftResult} (h : p ∈ dictInsert m k v) : p ∈ m ∨ p.2 = v := by
  induction m with
  | nil =>
    simp only [dictInsert, List.mem_singleton] at h
    exact Or.inr (by rw [h])
  | cons q rest ih =>
    obtain ⟨k', v'⟩ := q
    simp only [dictInsert] at h
    by_cases hk : k' = k
    · rw [if_pos hk] at h
      rcases List.mem_cons.mp h with h | h
      · exact Or.inr (by rw [h])
      · exact Or.inl (List.mem_cons_of_mem _ h)
    · rw [if_neg hk] at h
      rcases List.mem_cons.mp h with h | h
      · exact Or.inl (by rw [h]; exact List.mem_cons_self _ _)
      · rcases ih h with h | h
        · exact Or.inl (List.mem_cons_of_mem _ h)
        · exact Or.inr h

/-- A successful lookup finds a pair of the dict. -/
theorem dictLookup_mem {m : List (Str × DriftResult)} {k : Str} {v : DriftResult}
    (h : dictLookup m k = some v) : (k, v) ∈ m := by
  induction m with
  | nil => simp [dictLookup] at h
  | cons q rest ih =>
    obtain ⟨k', v'⟩ := q
    simp only [dictLookup] at h
    by_cases hk : k' = k
    · rw [if_pos hk] at h
      obtain rfl : v' = v := by exact Option.some.inj h
      exact hk ▸ List.mem_cons_self _ _
    · exact List.mem_cons_of_mem _ (ih (by rwa [if_neg hk] at h))

/-! ## Detection facts -/

/-- Shape of every `detect_one` result: drift and a non-empty reason
never coexist, and a non-drifting result carries no diff lines. -/
theorem detect_one_inv (env : Env) (dir : Str) (d : Device) :
    ((detect_one env dir d).drift = true → (detect_one env dir d).reason = []) ∧
    ((detect_one env dir d).drift = false → (detect_one env dir d).diff = []) := by
  simp only [detect_one]
  cases hg : env.golden d.name with
  | none => simp
  | some g =>
    cases hf : env.fetch d.name with
    | error e => simp
    | ok r => simp

/-- Every pair of a detection pass carries some device's `detect_one`. -/
theorem mem_detect_drift {env : Env} {dir : Str} {devices : List Device}
    {p : Str × DriftResult} (h : p ∈ detect_drift env dir devices) :
    ∃ d ∈ devices, p.2 = detect_one env dir d := by
  have key : ∀ (ds : List Device) (acc : List (Str × DriftResult)),
      p ∈ ds.foldl (fun acc d => dictInsert acc d.name (detect_one env dir d)) acc →
      p ∈ acc ∨ ∃ d ∈ ds, p.2 = detect_one env dir d := by
    intro ds
    induction ds with
    | nil => exact fun acc h => Or.inl h
    | cons d rest ih =>
      intro acc h
      rw [List.foldl_cons] at h
      rcases ih _ h with h | ⟨d', hd', he⟩
      · rcases mem_dictInsert h with h | h
        · exact Or.inl h
        · exact Or.inr ⟨d, List.mem_cons_self _ _, h⟩
      · exact Or.inr ⟨d', List.mem_cons_of_mem _ hd', he⟩
  unfold detect_drift at h
  rcases key devices [] h with h' | h'
  · simp at h'
  · exact h'

/-- With pairwise-distinct device names, a detection pass is literally the
ordered list of per-device results. -/
theorem detect_drift_eq_map (env : Env) (dir : Str) (devices : List Device)
    (h : (devices.map Device.name).Nodup) :
    detect_drift env dir devices = devices.map fun d => (d.name, detect_one env dir d) := by
  have key : ∀ (ds : List Device) (acc : List (Str × DriftResult)),
      (∀ d ∈ ds, d.name ∉ acc.map Prod.fst) → (ds.map Device.name).Nodup →
      ds.foldl (fun acc d => dictInsert acc d.name (detect_one env dir d)) acc
        = acc ++ ds.map fun d => (d.name, detect_one env dir d) := by
    intro ds
    induction ds with
    | nil => intro acc _ _; simp
    | cons d rest ih =>
      intro acc hacc hnd
      rw [List.foldl_cons,
        dictInsert_of_not_mem (detect_one env dir d) (hacc d (List.mem_cons_self _ _))]
      simp only [List.map_cons, List.nodup_cons] at hnd
      rw [ih (acc ++ [(d.name, detect_one env dir d)])
        (by
          intro d' hd'
          simp only [List.map_append, List.mem_append, List.map_cons, List.map_nil,
            List.mem_singleton, not_or]
          refine ⟨hacc d' (List.mem_cons_of_mem _ hd'), fun he => ?_⟩
          exact hnd.1 (he ▸ List.mem_map_of_mem Device.name hd')) hnd.2]
      simp
  have := key devices [] (by simp) h
  simpa [detect_drift] using this

/-- Lookup in the mapped result list finds each device's own result. -/
theorem dictLookup_detect_map (env : Env) (dir : Str) :
    ∀ (devices : List Device), (devices.map Device.name).Nodup →
    ∀ d ∈ devices,
      dictLookup (devices.map fun d => (d.name, detect_one env dir d)) d.name
        = some (detect_one env dir d) := by
  intro devices
  induction devices with
  | nil => intro _ d hd; simp at hd
  | cons d0 rest ih =>
    intro hnd d hd
    simp only [List.map_cons, List.nodup_cons] at hnd
    rcases List.mem_cons.mp hd with rfl | hd
    · simp [dictLookup]
    · have hne : d0.name ≠ d.name := by
        intro he
        exact hnd.1 (he ▸ List.mem_map_of_mem Device.name hd)
      simp only [List.map_cons, dictLookup, if_neg hne]
      exact ih hnd.2 d hd

/-! ## Claim theorems: detection invariants -/

/-- C4: every `DriftResult` of a detection pass has `has_drift` and a
non-empty `unknown_reason` mutually exclusive (so exactly one of
drifted / unknown / clean holds), and carries no diff lines when it is
unknown or clean (`drift = false`). -/
theorem detect_drift_result_invariant (env : Env) (dir : Str) (devices : List Device) :
    ∀ p ∈ detect_drift env dir devices,
      ¬(p.2.drift = true ∧ p.2.reason ≠ []) ∧
      (p.2.drift = true → p.2.reason = []) ∧
      (p.2.reason ≠ [] → p.2.drift = false) ∧
      (p.2.drift = false → p.2.diff = []) := by
  intro p hp
  obtain ⟨d, _, he⟩ := mem_detect_drift hp
  rw [he]
  obtain ⟨h1, h2⟩ := detect_one_inv env dir d
  refine ⟨fun ⟨ha, hb⟩ => hb (h1 ha), h1, fun hr => ?_, h2⟩
  cases hdr : (detect_one env dir d).drift with
  | false => rfl
  | true => exact absurd (h1 hdr) hr

/-- Witness for C4 at a concrete pass: one device with a missing
baseline. -/
theorem detect_drift_result_invariant_witness :
    ¬(("A".data,
        (⟨false, "Golden config missing".data, [], "gd/A.cfg".data⟩ : DriftResult)).2.drift = true
      ∧ ("A".data,
        (⟨false, "Golden config missing".data, [], "gd/A.cfg".data⟩ : DriftResult)).2.reason ≠ []) :=
  (detect_drift_result_invariant ⟨fun _ => none, fun _ => .error "e".data⟩ "gd".data
    [⟨"A".data, "A".data⟩] _ (by decide)).1

/-- C7: a device whose baseline file does not exist gets
`reason = "Golden config missing"`, `drift = false`, empty diff, and its
result does not depend on the running-config fetch (no session is
opened: the loop `continue`s before `node_for_device`). -/
theorem detect_missing_baseline (env : Env) (dir : Str) (d : Device)
    (h : env.golden d.name = none) :
    detect_one env dir d =
      { drift := false, reason := "Golden config missing".data, diff := [],
        golden_path := golden_file_path dir d.name } ∧
    ∀ fetch : Str → Except Str Str,
      detect_one ⟨env.golden, fetch⟩ dir d = detect_one env dir d := by
  constructor
  · simp [detect_one, h]
  · intro fetch
    simp [detect_one, h]

/-- Witness for C7: a concrete device with no baseline file. -/
theorem detect_missing_baseline_witness :
    detect_one ⟨fun _ => none, fun _ => .ok "x".data⟩ "build/configs".data
        ⟨"C".data, "C".data⟩ =
      { drift := false, reason := "Golden config missing".data, diff := [],
        golden_path := golden_file_path "build/configs".data "C".data } :=
  (detect_missing_baseline ⟨fun _ => none, fun _ => .ok "x".data⟩ "build/configs".data
    ⟨"C".data, "C".data⟩ rfl).1

/-- C10: with distinct device names, the detection pass's key list is
exactly the input device-name list, and looking up any input device's
name succeeds with that device's own result. -/
theorem detect_drift_keys_complete (env : Env) (dir : Str) (devices : List Device)
    (h : (devices.map Device.name).Nodup) :
    (detect_drift env dir devices).map Prod.fst = devices.map Device.name ∧
    ∀ d ∈ devices,
      dictLookup (detect_drift env dir devices) d.name = some (detect_one env dir d) := by
  rw [detect_drift_eq_map env dir devices h]
  constructor
  · simp
  · exact dictLookup_detect_map env dir devices h

/-- Witness for C10 on a concrete two-device pass. -/
theorem detect_drift_keys_complete_witness :
    (detect_drift ⟨fun _ => none, fun _ => .error "e".data⟩ "gd".data
        [⟨"A".data, "A".data⟩, ⟨"B".data, "B".data⟩]).map Prod.fst
      = ["A".data, "B".data] :=
  (detect_drift_keys_complete ⟨fun _ => none, fun _ => .error "e".data⟩ "gd".data
    [⟨"A".data, "A".data⟩, ⟨"B".data, "B".data⟩] (by decide)).1

/-! ## Claim theorems: normalization and drift comparison (C1) -/

/-- C1 counterexample: the two sides are *not* normalized identically.
The baseline text `"a \nb"` and the live text `"a\nb"` are identical
after the spec's normalization (per-line trailing-whitespace strip,
blank-line trim, one trailing newline), yet the code's golden-side
normalization keeps the interior trailing space (`load_golden_config`
does no per-line rstrip), so the device registers drift. -/
theorem detect_drift_normalization_counterexample :
    spec_normalize "a \nb".data = spec_normalize "a\nb".data ∧
    load_golden_config "a \nb".data ≠ running_config "a \nb".data ∧
    (detect_one ⟨fun _ => some "a \nb".data, fun _ => .ok "a\nb".data⟩ "build/configs".data
        ⟨"srv".data, "srv".data⟩).drift = true := by
  decide

/-- C1 (amended): if the baseline text after the golden-side
normalization (line join, whole-text strip, one trailing newline) equals
the live text after the live-side normalization (per-line
trailing-whitespace strip, whole-text strip, one trailing newline), the
device's result has `has_drift = false` and no diff lines. -/
theorem detect_clean_when_normalized_equal (env : Env) (dir : Str) (d : Device) (g l : Str)
    (hg : env.golden d.name = some g) (hl : env.fetch d.name = .ok l)
    (heq : load_golden_config g = running_config l) :
    (detect_one env dir d).drift = false ∧ (detect_one env dir d).diff = [] := by
  have hdiff : config_diff (load_golden_config g) (running_config l) d.name = [] :=
    config_diff_eq_nil d.name (by rw [heq])
  simp only [detect_one, hg, hl]
  simp [hdiff]

/-- Witness for the amended C1: live text differing from the baseline
only in trailing whitespace compares clean. -/
theorem detect_clean_when_normalized_equal_witness :
    (detect_one ⟨fun _ => some "x\n".data, fun _ => .ok "x  ".data⟩ "gd".data
        ⟨"D".data, "D".data⟩).drift = false :=
  (detect_clean_when_normalized_equal ⟨fun _ => some "x\n".data, fun _ => .ok "x  ".data⟩
    "gd".data ⟨"D".data, "D".data⟩ "x\n".data "x  ".data rfl rfl (by decide)).1

/-! ## Claim theorems: snapshot collection (C3) -/

/-- C3 counterexample: when the raised exception carries an empty
message (`str(exc) == ""`, e.g. a bare `Exception()`), the snapshot's
`error` field is empty — the claim's "error_detail non-empty" is not
guaranteed by the code, which stores `str(exc)` verbatim. -/
theorem collect_snapshot_empty_error_counterexample :
    (collect_snapshot ⟨.error [], "n/a".data, "n/a".data, "n/a".data, "n/a".data⟩
        ⟨"A".data, "A".data⟩).reachable = false ∧
    (collect_snapshot ⟨.error [], "n/a".data, "n/a".data, "n/a".data, "n/a".data⟩
        ⟨"A".data, "A".data⟩).error = [] := by
  decide

/-- C3 (amended): on any connect/version failure, `collect_snapshot`
returns (it cannot raise in this total model, mirroring the function's
catch-all) a snapshot with `reachable = false`, every fact field equal
to the `"n/a"` sentinel, and `error` equal to the exception's message —
hence non-empty exactly when that message is. -/
theorem collect_snapshot_failure (env : SnapEnv) (d : Device) (exc : Str)
    (h : env.connectVersion = .error exc) :
    collect_snapshot env d =
      { name := d.name, model := "n/a".data, version := "n/a".data, uptime := "n/a".data,
        cpu := "n/a".data, temperature := "n/a".data, bgp := "n/a".data, mlag := "n/a".data,
        reachable := false, error := exc } := by
  simp [collect_snapshot, h]

/-- Witness for the amended C3 with a concrete non-empty message. -/
theorem collect_snapshot_failure_witness :
    collect_snapshot ⟨.error "timeout".data, "1.0%".data, "45.0C".data, "2/2 up".data,
        "active".data⟩ ⟨"A".data, "10.0.0.1".data⟩ =
      { name := "A".data, model := "n/a".data, version := "n/a".data, uptime := "n/a".data,
        cpu := "n/a".data, temperature := "n/a".data, bgp := "n/a".data, mlag := "n/a".data,
        reachable := false, error := "timeout".data } :=
  collect_snapshot_failure ⟨.error "timeout".data, "1.0%".data, "45.0C".data, "2/2 up".data,
    "active".data⟩ ⟨"A".data, "10.0.0.1".data⟩ "timeout".data rfl

/-! ## Claim theorems: health evaluator (C5) -/

/-- C5: the health evaluator is `"red"` (critical) whenever an available
CPU or temperature reading is at least 80, `"yellow"` (caution) when
both are unavailable, and `"green"` (nominal) otherwise; in particular
on the four concrete spec cases. -/
theorem health_color_spec (c t : Option ℚ) :
    (∀ v, c = some v → 80 ≤ v → health_color c t = "red".data) ∧
    (∀ v, t = some v → 80 ≤ v → health_color c t = "red".data) ∧
    (c = none → t = none → health_color c t = "yellow".data) ∧
    ((∀ v, c = some v → v < 80) → (∀ v, t = some v → v < 80) → ¬(c = none ∧ t = none) →
      health_color c t = "green".data) ∧
    health_color (some 81) (some 10) = "red".data ∧
    health_color (some 10) (some 81) = "red".data ∧
    health_color none none = "yellow".data ∧
    health_color (some 50) (some 50) = "green".data := by
  refine ⟨?_, ?_, ?_, ?_, by decide, by decide, by decide, by decide⟩
  · intro v hv h80
    subst hv
    simp [health_color, h80]
  · intro v hv h80
    subst hv
    cases c with
    | none => simp [health_color, h80]
    | some w =>
      by_cases hw : (80 : ℚ) ≤ w
      · simp [health_color, hw]
      · simp [health_color, hw, h80]
  · intro h1 h2
    subst h1; subst h2
    decide
  · intro hc ht hne
    cases c with
    | none =>
      cases t with
      | none => exact absurd ⟨rfl, rfl⟩ hne
      | some u =>
        have hu : ¬(80 : ℚ) ≤ u := not_le.mpr (ht u rfl)
        simp [health_color, hu]
    | some w =>
      have hw : ¬(80 : ℚ) ≤ w := not_le.mpr (hc w rfl)
      cases t with
      | none => simp [health_color, hw]
      | some u =>
        have hu : ¬(80 : ℚ) ≤ u := not_le.mpr (ht u rfl)
        simp [health_color, hw, hu]

/-- Witness for C5: the four concrete spec cases, via the theorem. -/
theorem health_color_spec_witness :
    health_color (some 81) (some 10) = "red".data ∧
    health_color none none = "yellow".data ∧
    health_color (some 50) (some 50) = "green".data :=
  ⟨((health_color_spec (some 81) (some 10)).1 81 rfl (by norm_num)),
   ((health_color_spec none none).2.2.1 rfl rfl),
   ((health_color_spec (some 50) (some 50)).2.2.2.1
     (fun v hv => by
       obtain rfl : (50 : ℚ) = v := Option.some.inj hv
       norm_num)
     (fun v hv => by
       obtain rfl : (50 : ℚ) = v := Option.some.inj hv
       norm_num)
     (by simp))⟩

/-! ## Claim theorems: remediation driver (C2, C6) -/

/-- C2 counterexample: device A drifts, is restored successfully, but
the verification fetch fails, so its re-detection is *unknown*
(`reason = "Error reading running-config: boom"`).  The code's
`remaining` check looks only at `info["drift"]`, so the run still exits
0 — the claim requires exit 1 when a remediated device re-detects as
unknown. -/
theorem run_verification_unknown_counterexample :
    run_main ⟨fun _ => some "hostname a".data, fun _ => .ok "hostname b".data⟩
        ⟨fun _ => some "hostname a".data, fun _ => .error "boom".data⟩
        "build/configs".data [⟨"A".data, "A".data⟩] false true (fun _ => true) =
      { restores := ["A".data],
        post := [("A".data,
          { drift := false, reason := "Error reading running-config: boom".data, diff := [],
            golden_path := "build/configs/A.cfg".data })],
        exitCode := 0 } := by
  decide

/-- Value of `run_tail` when remediation is suppressed or nothing drifted. -/
theorem run_tail_skip (envV : Env) (dir : Str) (devices : List Device)
    (dd : List (Str × DriftResult)) (nr conf : Bool) (rok : Str → Bool)
    (h : nr = true ∨ (drifted_devices dd devices).isEmpty = true) :
    run_tail envV dir devices dd nr conf rok =
      ⟨[], [], if (drifted_devices dd devices).isEmpty then 0 else 1⟩ := by
  rcases h with h | h <;> simp [run_tail, h]

/-- Value of `run_tail` when drift exists and the operator declines. -/
theorem run_tail_declined (envV : Env) (dir : Str) (devices : List Device)
    (dd : List (Str × DriftResult)) (rok : Str → Bool)
    (h : (drifted_devices dd devices).isEmpty = false) :
    run_tail envV dir devices dd false false rok = ⟨[], [], 1⟩ := by
  simp [run_tail, h]

/-- Value of `run_tail` when drift exists and the operator confirms. -/
theorem run_tail_confirmed (envV : Env) (dir : Str) (devices : List Device)
    (dd : List (Str × DriftResult)) (rok : Str → Bool)
    (h : (drifted_devices dd devices).isEmpty = false) :
    run_tail envV dir devices dd false true rok =
      ⟨(drifted_devices dd devices).map Device.name,
       detect_drift envV dir (drifted_devices dd devices),
       if ((drifted_devices dd devices).all fun d => rok d.name) &&
           (((detect_drift envV dir (drifted_devices dd devices)).filter
             fun p => p.2.drift).map Prod.fst).isEmpty then 0 else 1⟩ := by
  simp [run_tail, h]

/-- C2 (amended): verification counts a remediated device as failed only
when it re-detects with `has_drift = true`; an unknown re-detection is
not a failure.  The exit code is 0 iff no device drifted, or remediation
ran (not suppressed, confirmed) with every restore succeeding and no
re-detected device reporting drift; otherwise it is 1. -/
theorem run_exit_code (envD envV : Env) (dir : Str) (devices : List Device)
    (nr conf : Bool) (rok : Str → Bool) :
    (run_main envD envV dir devices nr conf rok).exitCode = 0 ↔
      (drifted_devices (detect_drift envD dir devices) devices = [] ∨
       (nr = false ∧ conf = true ∧
        (∀ d ∈ drifted_devices (detect_drift envD dir devices) devices, rok d.name = true) ∧
        (∀ p ∈ (run_main envD envV dir devices nr conf rok).post, p.2.drift = false))) := by
  have hrm : run_main envD envV dir devices nr conf rok
      = run_tail envV dir devices (detect_drift envD dir devices) nr conf rok := rfl
  by_cases he : (drifted_devices (detect_drift envD dir devices) devices).isEmpty = true
  · rw [hrm, run_tail_skip envV dir devices _ nr conf rok (Or.inr he)]
    simp [List.isEmpty_iff.mp he]
  · have he' : (drifted_devices (detect_drift envD dir devices) devices).isEmpty = false := by
      cases hx : (drifted_devices (detect_drift envD dir devices) devices).isEmpty
      · rfl
      · exact absurd hx he
    have hne : drifted_devices (detect_drift envD dir devices) devices ≠ [] := by
      intro hx
      rw [hx] at he'
      simp at he'
    cases nr with
    | true =>
      rw [hrm, run_tail_skip envV dir devices _ true conf rok (Or.inl rfl)]
      simp [he', hne]
    | false =>
      cases conf with
      | false =>
        rw [hrm, run_tail_declined envV dir devices _ rok he']
        simp [hne]
      | true =>
        rw [hrm, run_tail_confirmed envV dir devices _ rok he']
        by_cases hall :
            ∀ d ∈ drifted_devices (detect_drift envD dir devices) devices, rok d.name = true
        · by_cases hrem : ∀ p ∈ detect_drift envV dir
              (drifted_devices (detect_drift envD dir devices) devices), p.2.drift = false
          · rw [if_pos]
            · exact iff_of_true rfl (Or.inr ⟨rfl, rfl, hall, hrem⟩)
            · rw [Bool.and_eq_true]
              refine ⟨List.all_eq_true.mpr hall, ?_⟩
              simp only [List.isEmpty_iff, List.map_eq_nil_iff, List.filter_eq_nil_iff]
              intro p hp
              simp [hrem p hp]
          · rw [if_neg]
            · exact iff_of_false (by simp)
                (fun h => h.elim hne (fun ⟨_, _, _, hp⟩ => hrem hp))
            · intro hif
              rw [Bool.and_eq_true] at hif
              obtain ⟨_, hemp⟩ := hif
              apply hrem
              intro p hp
              simp only [List.isEmpty_iff, List.map_eq_nil_iff, List.filter_eq_nil_iff] at hemp
              simpa using hemp p hp
        · rw [if_neg]
          · exact iff_of_false (by simp)
              (fun h => h.elim hne (fun ⟨_, _, hall', _⟩ => hall hall'))
          · intro hif
            rw [Bool.and_eq_true] at hif
            exact hall (List.all_eq_true.mp hif.1)

/-- Witness for the amended C2: a concrete clean fleet exits 0 via the
characterization. -/
theorem run_exit_code_witness :
    (run_main ⟨fun _ => some "x\n".data, fun _ => .ok "x".data⟩
        ⟨fun _ => some "x\n".data, fun _ => .ok "x".data⟩
        "gd".data [⟨"A".data, "A".data⟩] false false (fun _ => false)).exitCode = 0 :=
  (run_exit_code ⟨fun _ => some "x\n".data, fun _ => .ok "x".data⟩
    ⟨fun _ => some "x\n".data, fun _ => .ok "x".data⟩
    "gd".data [⟨"A".data, "A".data⟩] false false (fun _ => false)).mpr (Or.inl (by decide))

/-- A duplicate-free name list counts every name at most once. -/
theorem count_le_one_of_nodup {l : List Str} (h : l.Nodup) (n : Str) : l.count n ≤ 1 := by
  induction l with
  | nil => simp
  | cons a l ih =>
    rw [List.count_cons]
    rcases List.nodup_cons.mp h with ⟨ha, hl⟩
    by_cases han : a = n
    · subst han
      rw [List.count_eq_zero_of_not_mem ha]
      simp
    · simp only [beq_iff_eq, if_neg han, Nat.add_zero]
      exact ih hl

/-- C6: every device passed to `restore_golden` was classified
`has_drift = true` (with empty `unknown_reason`) by the most recent
detection pass, and with distinct device names no device is restored
more than once per invocation. -/
theorem remediation_only_drifted (envD envV : Env) (dir : Str) (devices : List Device)
    (nr conf : Bool) (rok : Str → Bool) :
    (∀ n ∈ (run_main envD envV dir devices nr conf rok).restores,
      ∃ r, dictLookup (detect_drift envD dir devices) n = some r ∧
        r.drift = true ∧ r.reason = []) ∧
    ((devices.map Device.name).Nodup →
      ∀ n, ((run_main envD envV dir devices nr conf rok).restores).count n ≤ 1) := by
  have hrm : run_main envD envV dir devices nr conf rok
      = run_tail envV dir devices (detect_drift envD dir devices) nr conf rok := rfl
  have main_case :
      ∀ out : RunOutcome,
        out.restores = (drifted_devices (detect_drift envD dir devices) devices).map Device.name →
        (∀ n ∈ out.restores,
          ∃ r, dictLookup (detect_drift envD dir devices) n = some r ∧
            r.drift = true ∧ r.reason = []) ∧
        ((devices.map Device.name).Nodup → ∀ n, out.restores.count n ≤ 1) := by
    intro out hout
    constructor
    · intro n hn
      rw [hout] at hn
      simp only [List.mem_map] at hn
      obtain ⟨d, hd, rfl⟩ := hn
      unfold drifted_devices at hd
      rw [List.mem_filter] at hd
      obtain ⟨hdev, hpred⟩ := hd
      cases hl : dictLookup (detect_drift envD dir devices) d.name with
      | none => rw [hl] at hpred; simp at hpred
      | some r =>
        rw [hl] at hpred
        simp at hpred
        refine ⟨r, rfl, hpred, ?_⟩
        obtain ⟨d', _, he⟩ := mem_detect_drift (dictLookup_mem hl)
        have hinv := (detect_one_inv envD dir d').1
        rw [← he] at hinv
        exact hinv hpred
    · intro hnd n
      rw [hout]
      have hsub : List.Sublist
          ((drifted_devices (detect_drift envD dir devices) devices).map Device.name)
          (devices.map Device.name) :=
        List.Sublist.map Device.name (List.filter_sublist devices)
      exact count_le_one_of_nodup (hnd.sublist hsub) n
  by_cases he : (drifted_devices (detect_drift envD dir devices) devices).isEmpty = true
  · rw [hrm, run_tail_skip envV dir devices _ nr conf rok (Or.inr he)]
    exact ⟨fun n hn => absurd hn (by simp), fun _ n => by simp⟩
  · have he' : (drifted_devices (detect_drift envD dir devices) devices).isEmpty = false := by
      cases hx : (drifted_devices (detect_drift envD dir devices) devices).isEmpty
      · rfl
      · exact absurd hx he
    cases nr with
    | true =>
      rw [hrm, run_tail_skip envV dir devices _ true conf rok (Or.inl rfl)]
      exact ⟨fun n hn => absurd hn (by simp), fun _ n => by simp⟩
    | false =>
      cases conf with
      | false =>
        rw [hrm, run_tail_declined envV dir devices _ rok he']
        exact ⟨fun n hn => absurd hn (by simp), fun _ n => by simp⟩
      | true =>
        rw [hrm, run_tail_confirmed envV dir devices _ rok he']
        exact main_case _ rfl

/-- Witness for C6: in a concrete run the drifted device is restored
exactly once. -/
theorem remediation_only_drifted_witness :
    ((run_main ⟨fun _ => some "hostname a".data, fun _ => .ok "hostname b".data⟩
        ⟨fun _ => some "hostname a".data, fun _ => .ok "hostname a".data⟩
        "gd".data [⟨"A".data, "A".data⟩] false true (fun _ => true)).restores).count "A".data
      ≤ 1 :=
  (remediation_only_drifted ⟨fun _ => some "hostname a".data, fun _ => .ok "hostname b".data⟩
    ⟨fun _ => some "hostname a".data, fun _ => .ok "hostname a".data⟩
    "gd".data [⟨"A".data, "A".data⟩] false true (fun _ => true)).2 (by decide) "A".data


/-! ## Inventory walk facts (C8) -/

/-- A group absent from the inventory resolves to the empty defaults. -/
theorem invGet_of_not_mem {inv : Inventory} {g : Str} (h : g ∉ invKeys inv) :
    invGet inv g = ⟨[], []⟩ := by
  induction inv with
  | nil => rfl
  | cons p rest ih =>
    obtain ⟨k, v⟩ := p
    simp only [invKeys, List.map_cons, List.mem_cons, not_or] at h
    have hne : ¬(k = g) := fun hk => h.1 hk.symm
    simp only [invGet, if_neg hne]
    exact ih (by simpa [invKeys] using h.2)

/-- The children loop only grows the `seen` set. -/
theorem foldChildren_seen_mono {rec : Str → List Str → Option (List Str × List Str)}
    (hrec : ∀ c s h s', rec c s = some (h, s') → s ⊆ s') :
    ∀ (cs seen hs s' : List Str),
      foldChildren rec cs seen = some (hs, s') → seen ⊆ s' := by
  intro cs
  induction cs with
  | nil =>
    intro seen hs s' hfc
    simp only [foldChildren, Option.some.injEq, Prod.mk.injEq] at hfc
    exact hfc.2 ▸ fun x hx => hx
  | cons c cs ih =>
    intro seen hs s' hfc
    cases h1 : rec c seen with
    | none =>
      simp only [foldChildren, h1] at hfc
      exact Option.noConfusion hfc
    | some r1 =>
      obtain ⟨h₁, s₁⟩ := r1
      cases h2 : foldChildren rec cs s₁ with
      | none =>
        simp only [foldChildren, h1, h2] at hfc
        exact Option.noConfusion hfc
      | some r2 =>
        obtain ⟨h₂, s₂⟩ := r2
        simp only [foldChildren, h1, h2, Option.some.injEq, Prod.mk.injEq] at hfc
        exact hfc.2 ▸ fun x hx => ih s₁ h₂ s₂ h2 (hrec c seen h₁ s₁ h1 hx)

/-- The recursive walk only grows the `seen` set. -/
theorem collect_hosts_seen_mono (inv : Inventory) :
    ∀ (fuel : Nat) (g : Str) (seen hs s : List Str),
      collect_hosts inv fuel g seen = some (hs, s) → seen ⊆ s := by
  intro fuel
  induction fuel with
  | zero => intro g seen hs s hc; exact absurd hc (by simp [collect_hosts])
  | succ fuel ih =>
    intro g seen hs s hc
    simp only [collect_hosts] at hc
    by_cases hg : g ∈ seen
    · rw [if_pos hg] at hc
      simp only [Option.some.injEq, Prod.mk.injEq] at hc
      exact hc.2 ▸ fun x hx => hx
    · rw [if_neg hg] at hc
      cases hfc : foldChildren (collect_hosts inv fuel) (invGet inv g).children (g :: seen) with
      | none =>
        simp only [hfc] at hc
        exact Option.noConfusion hc
      | some r =>
        obtain ⟨hs', s'⟩ := r
        simp only [hfc, Option.some.injEq, Prod.mk.injEq] at hc
        have hmono := foldChildren_seen_mono
          (fun c s h s' hcall => ih c s h s' hcall)
          (invGet inv g).children (g :: seen) hs' s' hfc
        exact hc.2 ▸ fun x hx => hmono (List.mem_cons_of_mem g hx)

/-- Inserting via `setUnion` into a duplicate-free list is duplicate-free. -/
theorem setUnion_nodup (l₁ : List Str) {l₂ : List Str} (h : l₂.Nodup) :
    (setUnion l₁ l₂).Nodup := by
  induction l₁ with
  | nil => exact h
  | cons a l₁ ih =>
    have step : setUnion (a :: l₁) l₂
        = if a ∈ setUnion l₁ l₂ then setUnion l₁ l₂ else a :: setUnion l₁ l₂ := rfl
    rw [step]
    by_cases ha : a ∈ setUnion l₁ l₂
    · rw [if_pos ha]; exact ih
    · rw [if_neg ha]; exact List.nodup_cons.mpr ⟨ha, ih⟩

/-- The children loop returns a duplicate-free host list. -/
theorem foldChildren_nodup {rec : Str → List Str → Option (List Str × List Str)} :
    ∀ (cs seen hs s' : List Str),
      foldChildren rec cs seen = some (hs, s') → hs.Nodup := by
  intro cs
  induction cs with
  | nil =>
    intro seen hs s' hfc
    simp only [foldChildren, Option.some.injEq, Prod.mk.injEq] at hfc
    exact hfc.1 ▸ List.nodup_nil
  | cons c cs ih =>
    intro seen hs s' hfc
    cases h1 : rec c seen with
    | none =>
      simp only [foldChildren, h1] at hfc
      exact Option.noConfusion hfc
    | some r1 =>
      obtain ⟨h₁, s₁⟩ := r1
      cases h2 : foldChildren rec cs s₁ with
      | none =>
        simp only [foldChildren, h1, h2] at hfc
        exact Option.noConfusion hfc
      | some r2 =>
        obtain ⟨h₂, s₂⟩ := r2
        simp only [foldChildren, h1, h2, Option.some.injEq, Prod.mk.injEq] at hfc
        exact hfc.1 ▸ setUnion_nodup h₁ (ih s₁ h₂ s₂ h2)

/-- The walk returns a duplicate-free host list. -/
theorem collect_hosts_nodup (inv : Inventory) :
    ∀ (fuel : Nat) (g : Str) (seen hs s : List Str),
      collect_hosts inv fuel g seen = some (hs, s) → hs.Nodup := by
  intro fuel
  induction fuel with
  | zero => intro g seen hs s hc; exact absurd hc (by simp [collect_hosts])
  | succ fuel ih =>
    intro g seen hs s hc
    simp only [collect_hosts] at hc
    by_cases hg : g ∈ seen
    · rw [if_pos hg] at hc
      simp only [Option.some.injEq, Prod.mk.injEq] at hc
      exact hc.1 ▸ List.nodup_nil
    · rw [if_neg hg] at hc
      cases hfc : foldChildren (collect_hosts inv fuel) (invGet inv g).children (g :: seen) with
      | none =>
        simp only [hfc] at hc
        exact Option.noConfusion hc
      | some r =>
        obtain ⟨hs', s'⟩ := r
        simp only [hfc, Option.some.injEq, Prod.mk.injEq] at hc
        exact hc.1 ▸ setUnion_nodup (invGet inv g).hosts.dedup
          (foldChildren_nodup (invGet inv g).children (g :: seen) hs' s' hfc)

/-- Strengthening the filter predicate cannot lengthen the filter. -/
theorem filter_length_mono {p q : Str → Bool} (hpq : ∀ a, p a = true → q a = true) :
    ∀ l : List Str, (l.filter p).length ≤ (l.filter q).length := by
  intro l
  induction l with
  | nil => simp
  | cons a l ih =>
    simp only [List.filter_cons]
    by_cases hp : p a = true
    · rw [if_pos hp, if_pos (hpq a hp)]
      simp only [List.length_cons]
      omega
    · rw [if_neg hp]
      by_cases hq : q a = true
      · rw [if_pos hq]
        simp only [List.length_cons]
        omega
      · rw [if_neg hq]
        exact ih

/-- The filter strictly shortens at an element the stronger predicate
rejects and the weaker accepts. -/
theorem filter_length_lt {p q : Str → Bool} (hpq : ∀ a, p a = true → q a = true)
    (g : Str) (hg : p g = false) (hgq : q g = true) :
    ∀ l : List Str, g ∈ l → (l.filter p).length < (l.filter q).length := by
  intro l
  induction l with
  | nil => intro h; exact absurd h (List.not_mem_nil g)
  | cons a l ih =>
    intro hmem
    simp only [List.filter_cons]
    rcases List.mem_cons.mp hmem with rfl | hmem
    · rw [if_neg (by simp [hg]), if_pos hgq]
      have := filter_length_mono hpq l
      simp only [List.length_cons]
      omega
    · by_cases hp : p a = true
      · rw [if_pos hp, if_pos (hpq a hp)]
        have := ih hmem
        simp only [List.length_cons]
        omega
      · rw [if_neg hp]
        by_cases hq : q a = true
        · rw [if_pos hq]
          have := ih hmem
          simp only [List.length_cons]
          omega
        · rw [if_neg hq]
          exact ih hmem

/-- With enough fuel for every child call, the children loop succeeds. -/
theorem foldChildren_collect_isSome (inv : Inventory) (fuel : Nat)
    (H : ∀ (seen : List Str) (g : Str),
      ((invKeys inv).dedup.filter fun k => decide (k ∉ seen)).length < fuel →
      (collect_hosts inv fuel g seen).isSome) :
    ∀ (cs seen : List Str),
      ((invKeys inv).dedup.filter fun k => decide (k ∉ seen)).length < fuel →
      (foldChildren (collect_hosts inv fuel) cs seen).isSome := by
  intro cs
  induction cs with
  | nil => intro seen _; rfl
  | cons c cs ih =>
    intro seen hlt
    have h1 := H seen c hlt
    cases hc1 : collect_hosts inv fuel c seen with
    | none => rw [hc1] at h1; exact absurd h1 (by simp)
    | some r1 =>
      obtain ⟨h₁, s₁⟩ := r1
      have hsub := collect_hosts_seen_mono inv fuel c seen h₁ s₁ hc1
      have hle : ((invKeys inv).dedup.filter fun k => decide (k ∉ s₁)).length
          ≤ ((invKeys inv).dedup.filter fun k => decide (k ∉ seen)).length := by
        apply filter_length_mono
        intro a ha
        rw [decide_eq_true_eq] at ha ⊢
        exact fun hmem => ha (hsub hmem)
      have h2 := ih s₁ (lt_of_le_of_lt hle hlt)
      simp only [foldChildren, hc1]
      cases hc2 : foldChildren (collect_hosts inv fuel) cs s₁ with
      | none => rw [hc2] at h2; exact absurd h2 (by simp)
      | some r2 =>
        obtain ⟨h₂, s₂⟩ := r2
        simp

/-- Fuel exceeding the number of groups not yet seen always suffices. -/
theorem collect_hosts_enough (inv : Inventory) :
    ∀ (fuel : Nat) (seen : List Str) (g : Str),
      ((invKeys inv).dedup.filter fun k => decide (k ∉ seen)).length < fuel →
      (collect_hosts inv fuel g seen).isSome := by
  intro fuel
  induction fuel with
  | zero => intro seen g h; exact absurd h (Nat.not_lt_zero _)
  | succ fuel ih =>
    intro seen g hlt
    simp only [collect_hosts]
    by_cases hg : g ∈ seen
    · rw [if_pos hg]; rfl
    · rw [if_neg hg]
      by_cases hk : g ∈ invKeys inv
      · have hdec : ((invKeys inv).dedup.filter fun k => decide (k ∉ g :: seen)).length
            < ((invKeys inv).dedup.filter fun k => decide (k ∉ seen)).length := by
          refine filter_length_lt ?_ g (by simp) (decide_eq_true hg) _
            (List.mem_dedup.mpr hk)
          intro a ha
          rw [decide_eq_true_eq] at ha ⊢
          exact fun hmem => ha (List.mem_cons_of_mem g hmem)
        have hfold := foldChildren_collect_isSome inv fuel (fun s g' h => ih s g' h)
          (invGet inv g).children (g :: seen)
          (lt_of_lt_of_le hdec (Nat.lt_succ_iff.mp hlt))
        cases hfc : foldChildren (collect_hosts inv fuel) (invGet inv g).children (g :: seen) with
        | none => rw [hfc] at hfold; exact absurd hfold (by simp)
        | some r =>
          obtain ⟨hs, s'⟩ := r
          simp [hfc]
      · rw [invGet_of_not_mem hk]
        rfl

/-- C8: for every inventory — cyclic `children` references included —
the recursive host collection terminates (fuel one more than the number
of inventory groups always suffices, which is what termination of the
seen-guarded Python recursion amounts to in this fuel-indexed model),
returns a finite, duplicate-free host list, and a group already in
`seen` (visited twice) contributes no hosts at all. -/
theorem collect_hosts_terminates (inv : Inventory) :
    (∀ g : Str, (collect_hosts inv ((invKeys inv).dedup.length + 1) g []).isSome) ∧
    (∀ (fuel : Nat) (g : Str) (seen hs s : List Str),
      collect_hosts inv fuel g seen = some (hs, s) → hs.Nodup) ∧
    (∀ (fuel : Nat) (g : Str) (seen : List Str), g ∈ seen →
      collect_hosts inv (fuel + 1) g seen = some ([], seen)) := by
  refine ⟨?_, collect_hosts_nodup inv, ?_⟩
  · intro g
    apply collect_hosts_enough
    have hle := List.length_filter_le (fun k => decide (k ∉ ([] : List Str)))
      (invKeys inv).dedup
    omega
  · intro fuel g seen hg
    simp [collect_hosts, hg]

/-- Witness for C8: a self-referential group (`A`'s children contain `A`)
resolves with the guaranteed fuel; its hosts are duplicate-free; a second
visit contributes nothing. -/
theorem collect_hosts_terminates_witness :
    (collect_hosts [("A".data, ⟨["h1".data, "h1".data], ["A".data]⟩)] 2 "A".data []).isSome ∧
    (["h1".data] : List Str).Nodup ∧
    collect_hosts [("A".data, ⟨["h1".data, "h1".data], ["A".data]⟩)] 1 "A".data ["A".data]
      = some ([], ["A".data]) :=
  ⟨(collect_hosts_terminates [("A".data, ⟨["h1".data, "h1".data], ["A".data]⟩)]).1 "A".data,
   (collect_hosts_terminates [("A".data, ⟨["h1".data, "h1".data], ["A".data]⟩)]).2.1
     2 "A".data [] ["h1".data] ["A".data] (by decide),
   (collect_hosts_terminates [("A".data, ⟨["h1".data, "h1".data], ["A".data]⟩)]).2.2
     0 "A".data ["A".data] (by decide)⟩

/-! ## Normalization facts (C9, supporting C1) -/

/-- The function `rstrip` is idempotent. -/
theorem rstrip_idem (s : Str) : rstrip (rstrip s) = rstrip s :=
  List.rdropWhile_idempotent pyWs s

/-- The function `lstrip` is idempotent. -/
theorem lstrip_idem (s : Str) : lstrip (lstrip s) = lstrip s :=
  List.dropWhile_idempotent pyWs s

/-- A string whose last character is not whitespace is `rstrip`-fixed. -/
theorem rstrip_eq_self_of_last {s : Str} {c : Char} (h : s.getLast? = some c)
    (hc : pyWs c = false) : rstrip s = s := by
  obtain ⟨ys, rfl⟩ := List.getLast?_eq_some_iff.mp h
  exact List.rdropWhile_concat_neg pyWs ys c (by simp [hc])

/-- A non-empty `rstrip`-fixed string ends in a non-whitespace character. -/
theorem last_not_ws_of_rstrip {s : Str} (h : rstrip s = s) (hne : s ≠ []) :
    ∃ c, s.getLast? = some c ∧ pyWs c = false := by
  have hall := List.rdropWhile_eq_self_iff.mp h
  exact ⟨s.getLast hne, List.getLast?_eq_getLast s hne, by simpa using hall hne⟩

/-- Characters of `lstrip s` come from `s`. -/
theorem lstrip_sub (s : Str) : ∀ c ∈ lstrip s, c ∈ s :=
  fun _ hc => (List.dropWhile_suffix pyWs).subset hc

/-- Characters of `rstrip s` come from `s`. -/
theorem rstrip_sub (s : Str) : ∀ c ∈ rstrip s, c ∈ s :=
  fun _ hc => ( List.rdropWhile_prefix pyWs s).subset hc

/-- Applying `lstrip` preserves `rstrip`-fixedness. -/
theorem rstrip_lstrip {s : Str} (h : rstrip s = s) : rstrip (lstrip s) = lstrip s := by
  by_cases hls : lstrip s = []
  · rw [hls]; rfl
  · obtain ⟨t, ht⟩ := (List.dropWhile_suffix pyWs : lstrip s <:+ s)
    have ht' : t ++ lstrip s = s := ht
    have hne : s ≠ [] := by
      intro hs
      subst hs
      exact hls (List.append_eq_nil.mp ht').2
    obtain ⟨c, hlast, hws⟩ := last_not_ws_of_rstrip h hne
    have hlast' : (lstrip s).getLast? = some c := by
      rw [← ht'] at hlast
      rwa [List.getLast?_append_of_ne_nil t hls] at hlast
    exact rstrip_eq_self_of_last hlast' hws

/-- The function `strip` is idempotent. -/
theorem strip_idem (s : Str) : strip (strip s) = strip s := by
  unfold strip
  rw [rstrip_lstrip (rstrip_idem s), lstrip_idem]

/-- The function `splitNl` always yields at least one piece. -/
theorem splitNl_ne_nil (s : Str) : splitNl s ≠ [] := by
  induction s with
  | nil => simp [splitNl]
  | cons c cs ih =>
    simp only [splitNl]
    by_cases hc : c = '\n'
    · rw [if_pos hc]; simp
    · rw [if_neg hc]
      cases h : splitNl cs with
      | nil => simp
      | cons p ps => simp

/-- Joining the pieces of a split rebuilds the string. -/
theorem joinNl_splitNl (s : Str) : joinNl (splitNl s) = s := by
  induction s with
  | nil => rfl
  | cons c cs ih =>
    simp only [splitNl]
    by_cases hc : c = '\n'
    · rw [if_pos hc, hc]
      cases h : splitNl cs with
      | nil => exact absurd h (splitNl_ne_nil cs)
      | cons p ps =>
        rw [show joinNl ([] :: p :: ps) = '\n' :: joinNl (p :: ps) from rfl, ← h, ih]
    · rw [if_neg hc]
      cases h : splitNl cs with
      | nil => exact absurd h (splitNl_ne_nil cs)
      | cons p ps =>
        have hj : joinNl ((c :: p) :: ps) = c :: joinNl (p :: ps) := by
          cases ps with
          | nil => rfl
          | cons q qs => rfl
        rw [hj, ← h, ih]

/-- Pieces of a split contain no terminator. -/
theorem mem_splitNl_no_nl (s : Str) : ∀ p ∈ splitNl s, '\n' ∉ p := by
  induction s with
  | nil =>
    intro p hp
    simp only [splitNl, List.mem_singleton] at hp
    simp [hp]
  | cons c cs ih =>
    intro p hp
    simp only [splitNl] at hp
    by_cases hc : c = '\n'
    · rw [if_pos hc] at hp
      rcases List.mem_cons.mp hp with rfl | hp
      · simp
      · exact ih p hp
    · rw [if_neg hc] at hp
      cases h : splitNl cs with
      | nil => exact absurd h (splitNl_ne_nil cs)
      | cons q qs =>
        rw [h] at hp
        rcases List.mem_cons.mp hp with rfl | hp
        · intro hmem
          rcases List.mem_cons.mp hmem with he | hmem
          · exact hc he.symm
          · exact ih q (h ▸ List.mem_cons_self q qs) hmem
        · exact ih p (h ▸ List.mem_cons_of_mem q hp)

/-- A terminator-free string splits into itself. -/
theorem splitNl_no_nl {x : Str} (h : '\n' ∉ x) : splitNl x = [x] := by
  induction x with
  | nil => rfl
  | cons c cs ih =>
    simp only [List.mem_cons, not_or] at h
    simp only [splitNl]
    rw [if_neg (fun he => h.1 he.symm), ih h.2]

/-- Splitting picks off a leading terminator-free piece. -/
theorem splitNl_append_nl {x : Str} (h : '\n' ∉ x) (t : Str) :
    splitNl (x ++ '\n' :: t) = x :: splitNl t := by
  induction x with
  | nil => simp [splitNl]
  | cons c cs ih =>
    simp only [List.mem_cons, not_or] at h
    rw [show (c :: cs) ++ '\n' :: t = c :: (cs ++ '\n' :: t) from rfl]
    simp only [splitNl]
    rw [if_neg (fun he => h.1 he.symm), ih h.2]

/-- Splitting the join of terminator-free pieces recovers the pieces. -/
theorem splitNl_joinNl : ∀ ls : List Str, ls ≠ [] → (∀ l ∈ ls, '\n' ∉ l) →
    splitNl (joinNl ls) = ls := by
  intro ls
  induction ls with
  | nil => intro h _; exact absurd rfl h
  | cons x ls ih =>
    intro _ hnl
    cases ls with
    | nil => exact splitNl_no_nl (hnl x (List.mem_cons_self x []))
    | cons y ys =>
      rw [show joinNl (x :: y :: ys) = x ++ '\n' :: joinNl (y :: ys) from rfl]
      rw [splitNl_append_nl (hnl x (List.mem_cons_self _ _))]
      rw [ih (by simp) (fun l hl => hnl l (List.mem_cons_of_mem x hl))]

/-- Value of `splitlines` on a text ending in exactly one newline. -/
theorem splitlines_concat_nl (u : Str) : splitlines (u ++ ['\n']) = splitNl u := by
  unfold splitlines dropTrailNl
  rw [if_neg (by simp : ¬(u ++ ['\n'] = [])), if_pos (List.getLast?_concat u),
    List.dropLast_concat]

/-- Joining with one more trailing piece appends a terminator and it. -/
theorem joinNl_concat {ys : List Str} (h : ys ≠ []) (y : Str) :
    joinNl (ys ++ [y]) = joinNl ys ++ '\n' :: y := by
  induction ys with
  | nil => exact absurd rfl h
  | cons a ys ih =>
    cases ys with
    | nil => rfl
    | cons b bs =>
      rw [show (a :: b :: bs) ++ [y] = a :: ((b :: bs) ++ [y]) from rfl]
      rw [show joinNl (a :: ((b :: bs) ++ [y])) = a ++ '\n' :: joinNl ((b :: bs) ++ [y])
        from rfl]
      rw [ih (by simp)]
      rw [show joinNl (a :: b :: bs) = a ++ '\n' :: joinNl (b :: bs) from rfl,
        List.append_assoc]
      rfl

/-- Pieces surviving `rdropWhile` keep the `NormPieces` shape. -/
theorem normPieces_rdropWhile {ls : List Str} (h : NormPieces ls) :
    NormPieces (ls.rdropWhile fun l => l.isEmpty) :=
  fun l hl => h l (( List.rdropWhile_prefix _ ls).subset hl)

/-- Pieces surviving `dropWhile` keep the `NormPieces` shape. -/
theorem normPieces_dropWhile {ms : List Str} (h : NormPieces ms) :
    NormPieces (ms.dropWhile fun l => l.isEmpty) :=
  fun l hl => h l ((List.dropWhile_suffix _).subset hl)

/-- Applying `lstrip` on the first piece keeps the `NormPieces` shape. -/
theorem normPieces_lstripFirst {ms : List Str} (h : NormPieces ms) :
    NormPieces (lstripFirst ms) := by
  cases ms with
  | nil => exact h
  | cons a t =>
    intro l hl
    rcases List.mem_cons.mp hl with rfl | hl
    · have ha := h a (List.mem_cons_self _ _)
      exact ⟨fun hm => ha.1 (lstrip_sub a '\n' hm), rstrip_lstrip ha.2⟩
    · exact h l (List.mem_cons_of_mem _ hl)

/-- Applying `rstrip` to a join of rstripped pieces drops the trailing empty
pieces (with their separators) and nothing else. -/
theorem rstrip_joinNl : ∀ ls : List Str, NormPieces ls →
    rstrip (joinNl ls) = joinNl (ls.rdropWhile fun l => l.isEmpty) := by
  intro ls
  induction ls using List.reverseRecOn with
  | nil => intro _; rfl
  | append_singleton ys y ih =>
    intro h
    have hys : NormPieces ys := fun l hl => h l (List.mem_append_left _ hl)
    have hy := h y (List.mem_append_right _ (List.mem_cons_self y []))
    by_cases hyn : y = []
    · subst hyn
      rw [List.rdropWhile_concat_pos _ ys [] (by simp)]
      by_cases hysnil : ys = []
      · subst hysnil; rfl
      · rw [joinNl_concat hysnil]
        rw [show joinNl ys ++ '\n' :: ([] : Str) = joinNl ys ++ ['\n'] from rfl]
        rw [show rstrip (joinNl ys ++ ['\n']) = rstrip (joinNl ys) from
          List.rdropWhile_concat_pos pyWs (joinNl ys) '\n' rfl]
        exact ih hys
    · obtain ⟨c, hlast, hws⟩ := last_not_ws_of_rstrip hy.2 hyn
      rw [List.rdropWhile_concat_neg _ ys y (by simp [List.isEmpty_iff, hyn])]
      by_cases hysnil : ys = []
      · subst hysnil
        simp only [List.nil_append]
        exact rstrip_eq_self_of_last hlast hws
      · rw [joinNl_concat hysnil]
        apply rstrip_eq_self_of_last _ hws
        rw [List.getLast?_append_of_ne_nil _ (by simp : ('\n' :: y : Str) ≠ [])]
        rw [show ('\n' :: y : Str) = ['\n'] ++ y from rfl,
          List.getLast?_append_of_ne_nil _ hyn]
        exact hlast

/-- Appending after a string whose `lstrip` is non-empty commutes with
`lstrip`. -/
theorem lstrip_append_of_ne {a : Str} (b : Str) (h : lstrip a ≠ []) :
    lstrip (a ++ b) = lstrip a ++ b := by
  unfold lstrip
  rw [List.dropWhile_append, if_neg fun hemp => h (by rwa [List.isEmpty_iff] at hemp)]

/-- Applying `lstrip` to a join of rstripped pieces drops the leading empty
pieces and left-strips the first surviving piece. -/
theorem lstrip_joinNl : ∀ ms : List Str, NormPieces ms →
    lstrip (joinNl ms) = joinNl (lstripFirst (ms.dropWhile fun l => l.isEmpty)) := by
  intro ms
  induction ms with
  | nil => intro _; rfl
  | cons h0 t ih =>
    intro hnp
    have ht : NormPieces t := fun l hl => hnp l (List.mem_cons_of_mem _ hl)
    by_cases h0n : h0 = []
    · subst h0n
      rw [List.dropWhile_cons_of_pos (by simp)]
      cases t with
      | nil => rfl
      | cons q qs =>
        rw [show joinNl (([] : Str) :: q :: qs) = '\n' :: joinNl (q :: qs) from rfl]
        rw [show lstrip ('\n' :: joinNl (q :: qs)) = lstrip (joinNl (q :: qs)) from rfl]
        exact ih ht
    · have hh0 := hnp h0 (List.mem_cons_self _ _)
      obtain ⟨c, hlast, hws⟩ := last_not_ws_of_rstrip hh0.2 h0n
      have hlne : lstrip h0 ≠ [] := by
        intro hl
        have hall := List.dropWhile_eq_nil_iff.mp hl
        have hcmem : c ∈ h0 := by
          obtain ⟨ys, rfl⟩ := List.getLast?_eq_some_iff.mp hlast
          exact List.mem_append_right ys (List.mem_cons_self c [])
        exact absurd (hall c hcmem) (by simp [hws])
      rw [List.dropWhile_cons_of_neg (by simp [List.isEmpty_iff, h0n])]
      cases t with
      | nil => rfl
      | cons q qs =>
        rw [show joinNl (h0 :: q :: qs) = h0 ++ '\n' :: joinNl (q :: qs) from rfl]
        rw [lstrip_append_of_ne _ hlne]
        rfl

/-- The pieces of a stripped join of `NormPieces` are `rstrip`-fixed. -/
theorem map_rstrip_strip_joinNl {ls : List Str} (h : NormPieces ls) :
    (splitNl (strip (joinNl ls))).map rstrip = splitNl (strip (joinNl ls)) := by
  have heq : strip (joinNl ls)
      = joinNl (lstripFirst ((ls.rdropWhile fun l => l.isEmpty).dropWhile
          fun l => l.isEmpty)) := by
    unfold strip
    rw [rstrip_joinNl ls h, lstrip_joinNl _ (normPieces_rdropWhile h)]
  have hnp : NormPieces (lstripFirst ((ls.rdropWhile fun l => l.isEmpty).dropWhile
      fun l => l.isEmpty)) :=
    normPieces_lstripFirst (normPieces_dropWhile (normPieces_rdropWhile h))
  by_cases hne : lstripFirst ((ls.rdropWhile fun l => l.isEmpty).dropWhile
      fun l => l.isEmpty) = []
  · rw [heq, hne]
    rfl
  · rw [heq, splitNl_joinNl _ hne (fun l hl => (hnp l hl).1)]
    calc (lstripFirst ((ls.rdropWhile fun l => l.isEmpty).dropWhile
          fun l => l.isEmpty)).map rstrip
        = (lstripFirst ((ls.rdropWhile fun l => l.isEmpty).dropWhile
            fun l => l.isEmpty)).map id :=
          List.map_congr_left (fun a ha => (hnp a ha).2)
      _ = _ := List.map_id _

/-- Pieces of any `splitlines`, once rstripped, are `NormPieces`. -/
theorem normPieces_splitlines_rstrip (s : Str) :
    NormPieces ((splitlines s).map rstrip) := by
  intro l hl
  obtain ⟨a, ha, rfl⟩ := List.mem_map.mp hl
  have hnl : '\n' ∉ a := by
    unfold splitlines at ha
    by_cases hs : s = []
    · rw [if_pos hs] at ha; simp at ha
    · rw [if_neg hs] at ha
      exact mem_splitNl_no_nl _ a ha
  exact ⟨fun hm => hnl (rstrip_sub a '\n' hm), rstrip_idem a⟩

/-- The live-side normalization is idempotent. -/
theorem running_config_idempotent (s : Str) :
    running_config (running_config s) = running_config s := by
  have key : ∀ ls : List Str, NormPieces ls →
      running_config (strip (joinNl ls) ++ ['\n']) = strip (joinNl ls) ++ ['\n'] := by
    intro ls h
    unfold running_config
    rw [splitlines_concat_nl, map_rstrip_strip_joinNl h, joinNl_splitNl, strip_idem]
  exact key ((splitlines s).map rstrip) (normPieces_splitlines_rstrip s)

/-- The golden-side normalization is idempotent. -/
theorem load_golden_config_idempotent (s : Str) :
    load_golden_config (load_golden_config s) = load_golden_config s := by
  have key : ∀ t : Str, load_golden_config (strip t ++ ['\n']) = strip t ++ ['\n'] := by
    intro t
    unfold load_golden_config
    rw [splitlines_concat_nl, joinNl_splitNl, strip_idem]
  exact key (joinNl (splitlines s))

/-- C9: both drift-normalization functions are idempotent byte-for-byte:
re-normalizing `running_config`'s output (per-line rstrip, whole-text
strip, one trailing newline) returns it unchanged, and likewise for
`load_golden_config`'s (line join, whole-text strip, one trailing
newline). -/
theorem normalization_idempotent (s : Str) :
    running_config (running_config s) = running_config s ∧
    load_golden_config (load_golden_config s) = load_golden_config s :=
  ⟨running_config_idempotent s, load_golden_config_idempotent s⟩

end FabricPulse
